import Mathlib

set_option maxRecDepth 8000

/-!
Shallow embedding of `clean_data.py`, a single-pass table-cleaning script.
A pandas DataFrame is modelled as a header list plus row-major cell lists;
each cleaning step of the script is an explicit list transformation, and
operations that raise (`KeyError` on a missing subset column) return
`Except`.  The script's top-level `try`/`except` wrapper is modelled by
`runScript` over an environment holding the input and output files.
-/

/-- A cell of the in-memory table.  `null` stands for the pandas missing
values (NaN, NaT, None); numbers are modelled as integers and datetime
values as an abstract numeric timestamp. -/
inductive Cell : Type where
  | null : Cell
  | str : String → Cell
  | num : Int → Cell
  | date : Nat → Cell
deriving DecidableEq, Repr

abbrev Row := List Cell

/-- A DataFrame: named columns over row-major, positionally aligned storage. -/
structure Table : Type where
  headers : List String
  rows : List Row
deriving DecidableEq, Repr

/-- Well-formedness: every row has exactly one cell per column. -/
def WF (t : Table) : Prop := ∀ r ∈ t.rows, r.length = t.headers.length

instance (t : Table) : Decidable (WF t) :=
  inferInstanceAs (Decidable (∀ r ∈ t.rows, r.length = t.headers.length))

/-- The cell of row `r` in column position `i` (missing positions read as null). -/
def cellAt (i : Nat) (r : Row) : Cell := r.getD i Cell.null

/-- Position of column `n` in a header list (first match, as in pandas). -/
def colIdx (n : String) : List String → Option Nat
  | [] => none
  | h :: hs => if h = n then some 0 else (colIdx n hs).map (· + 1)

/-- `drop_duplicates(keep='first')` generalized over a key function: keep
each element whose key has not been seen before. -/
def dropDupsBy {α β : Type} [DecidableEq β] (f : α → β) : List α → List β → List α
  | [], _ => []
  | x :: xs, seen =>
    if f x ∈ seen then dropDupsBy f xs seen else x :: dropDupsBy f xs (f x :: seen)

/-- `duplicated(...).sum()`: the number of elements equal (under the key) to an
earlier element. -/
def dupCountBy {α β : Type} [DecidableEq β] (f : α → β) (xs : List α) : Nat :=
  xs.length - (dropDupsBy f xs []).length

/-- Errors the pipeline body can raise; pandas raises `KeyError` when a
`subset=` column is absent. -/
inductive PError : Type where
  | keyError : String → PError
deriving DecidableEq, Repr

def trimChars (l : List Char) : List Char :=
  ((l.dropWhile Char.isWhitespace).reverse.dropWhile Char.isWhitespace).reverse

/-- Model of python `str.lower()` followed by `str.strip()`. -/
def lowerStrip (s : String) : String := String.mk (trimChars (s.data.map Char.toLower))

/-- Model of the header transform `.str.lower().str.strip().str.replace(' ', '_')`. -/
def normalizeName (s : String) : String :=
  String.mk ((trimChars (s.data.map Char.toLower)).map (fun c => if c = ' ' then '_' else c))

/-- Model of `astype(str)` on one cell: pandas renders a missing value as the
literal string "nan". -/
def cellToStr : Cell → String
  | Cell.null => "nan"
  | Cell.str s => s
  | Cell.num n => toString n
  | Cell.date d => toString d

/-- One cell of the text-column normalization `astype(str).str.lower().str.strip()`. -/
def textNormCell (c : Cell) : Cell := Cell.str (lowerStrip (cellToStr c))

/-- One cell of the phone normalization `astype(str).str.replace(r'[^\d]', '', regex=True)`,
with the digit class read as the ASCII digits. -/
def digitsOnlyCell (c : Cell) : Cell :=
  Cell.str (String.mk ((cellToStr c).data.filter Char.isDigit))

/-- One cell of `fillna('N/A')`: only missing values are replaced. -/
def fillNACell (c : Cell) : Cell := if c = Cell.null then Cell.str "N/A" else c

def charsToNat? (l : List Char) : Option Nat :=
  if l.isEmpty then none
  else if l.all Char.isDigit then
    some (l.foldl (fun acc c => acc * 10 + (c.toNat - 48)) 0)
  else none

def splitOnDash : List Char → List (List Char)
  | [] => [[]]
  | c :: cs =>
    if c = '-' then [] :: splitOnDash cs
    else
      match splitOnDash cs with
      | [] => [[c]]
      | g :: gs => (c :: g) :: gs

/-- Modelled approximation of the `pd.to_datetime` string parser: ISO-like
`Y-M-D` strings are accepted and encoded as a numeric key; anything else
fails to parse. -/
def parseDateStr (s : String) : Option Nat :=
  match splitOnDash s.data with
  | [y, m, d] =>
    match charsToNat? y, charsToNat? m, charsToNat? d with
    | some yn, some mn, some dn =>
      if 1 ≤ mn ∧ mn ≤ 12 ∧ 1 ≤ dn ∧ dn ≤ 31 then some (yn * 10000 + mn * 100 + dn)
      else none
    | _, _, _ => none
  | _ => none

/-- Whether one cell parses as a datetime (`pd.to_datetime` on that value). -/
def parseDateCell : Cell → Option Nat
  | Cell.null => none
  | Cell.str s => parseDateStr s
  | Cell.num n => if 0 ≤ n then some n.toNat else none
  | Cell.date d => some d

/-- With `errors='coerce'` a parse failure becomes missing (NaT). -/
def coerceDateCell (c : Cell) : Cell :=
  match parseDateCell c with
  | some d => Cell.date d
  | none => Cell.null

/-- The dtype test `is_datetime64_any_dtype` on one cell: datetime columns
hold only timestamps and NaT. -/
def isDateLike : Cell → Bool
  | Cell.date _ => true
  | Cell.null => true
  | _ => false

def cellIsStr : Cell → Bool
  | Cell.str _ => true
  | _ => false

/-- A digits-only string cell, the shape `^\d*$` from the spec. -/
def cellIsDigits : Cell → Bool
  | Cell.str s => s.data.all Char.isDigit
  | _ => false

/-- Step 2 of the script: remove fully identical rows, keeping the first
occurrence, guarded by the `initial_duplicates > 0` check. -/
def stepDedupRows (t : Table) : Table :=
  if 0 < dupCountBy (fun r => r) t.rows then
    { t with rows := dropDupsBy (fun r => r) t.rows [] }
  else t

/-- Key deduplication on `'Customer Id'`; raises `KeyError` when absent, as
`duplicated(subset=['Customer Id'])` does. -/
def stepDedupIds (t : Table) : Except PError Table :=
  match colIdx "Customer Id" t.headers with
  | none => Except.error (PError.keyError "Customer Id")
  | some i =>
    Except.ok
      (if 0 < dupCountBy (cellAt i) t.rows then
        { t with rows := dropDupsBy (cellAt i) t.rows [] }
      else t)

/-- Drop the `'Index'` column if present. -/
def stepDropIndexCol (t : Table) : Table :=
  match colIdx "Index" t.headers with
  | none => t
  | some i => { headers := t.headers.eraseIdx i, rows := t.rows.map (fun r => r.eraseIdx i) }

/-- Header normalization: lowercase, strip, spaces to underscores. -/
def stepRenameHeaders (t : Table) : Table := { t with headers := t.headers.map normalizeName }

/-- `dropna(subset=['customer_id'])`: remove rows whose identifier is missing;
raises `KeyError` when the column is absent. -/
def stepDropMissingIds (t : Table) : Except PError Table :=
  match colIdx "customer_id" t.headers with
  | none => Except.error (PError.keyError "customer_id")
  | some i => Except.ok { t with rows := t.rows.filter (fun r => decide (cellAt i r ≠ Cell.null)) }

/-- Apply `f` to every cell of the named column, when present. -/
def mapCol (t : Table) (n : String) (f : Cell → Cell) : Table :=
  match colIdx n t.headers with
  | none => t
  | some i => { t with rows := t.rows.map (fun r => r.set i (f (cellAt i r))) }

/-- `df['email'].fillna('N/A')`, guarded exactly as the script guards it. -/
def stepFillEmail (t : Table) : Table :=
  match colIdx "email" t.headers with
  | none => t
  | some i =>
    if 0 < t.rows.countP (fun r => decide (cellAt i r = Cell.null)) then
      mapCol t "email" fillNACell
    else t

/-- Date-type correction on `subscription_date`: skipped when the column is
absent or already datetime-typed, otherwise `pd.to_datetime(..., errors='coerce')`. -/
def stepParseDates (t : Table) : Table :=
  match colIdx "subscription_date" t.headers with
  | none => t
  | some i =>
    if t.rows.all (fun r => isDateLike (cellAt i r)) then t
    else mapCol t "subscription_date" coerceDateCell

def textColumns : List String :=
  ["first_name", "last_name", "company", "city", "country",
   "phone_1", "phone_2", "email", "website"]

def phoneColumns : List String := ["phone_1", "phone_2"]

/-- The text-standardization loop over the fixed list of text columns. -/
def stepTextColumns (t : Table) : Table :=
  textColumns.foldl (fun acc c => mapCol acc c textNormCell) t

/-- The phone-cleaning loop. -/
def stepPhoneColumns (t : Table) : Table :=
  phoneColumns.foldl (fun acc c => mapCol acc c digitsOnlyCell) t

/-- The error-free tail of the pipeline (steps 7 through 10 of the spec). -/
def tailSteps (t : Table) : Table :=
  stepPhoneColumns (stepTextColumns (stepParseDates (stepFillEmail t)))

/-- The whole in-memory cleaning pipeline of the script, steps 2 through 10:
exact-row dedup, key dedup, column drop, header rename, dropna on the key,
email fill, date parsing, text normalization, phone normalization. -/
def cleanData (t : Table) : Except PError Table :=
  match stepDedupIds (stepDedupRows t) with
  | Except.error e => Except.error e
  | Except.ok t3 =>
    match stepDropMissingIds (stepRenameHeaders (stepDropIndexCol t3)) with
    | Except.error e => Except.error e
    | Except.ok t6 => Except.ok (tailSteps t6)

/-- Default `to_csv` rendering of one cell: missing values become empty fields. -/
def renderCell : Cell → String
  | Cell.null => ""
  | Cell.str s => s
  | Cell.num n => toString n
  | Cell.date d => toString d

def renderRow (r : Row) : List String := r.map renderCell

/-- `to_csv(index=False)` as a list of field lists: header row then data rows. -/
def renderTable (t : Table) : List (List String) :=
  t.headers :: t.rows.map renderRow

/-- What `pd.read_excel` can deliver: the file may be missing, the engine
library may be missing, the content may be malformed, or a table is loaded. -/
inductive LoadResult : Type where
  | missingFile : LoadResult
  | missingOpenpyxl : LoadResult
  | badFile : LoadResult
  | loaded : Table → LoadResult
deriving DecidableEq, Repr

/-- The externally visible state: the input file and the output file. -/
structure Env : Type where
  input : LoadResult
  outputFile : Option Table
deriving DecidableEq, Repr

def msgFileNotFound : String := "Error: the input file was not found."
def msgMissingOpenpyxl : String := "You are missing the openpyxl library."
def msgGenericError : String := "An error occurred."
def msgSuccess : String := "Successfully cleaned data and saved."

/-- Model of one whole run of the script: the `try` block with its three
handlers.  The result is the final environment (the output file is written
only at the very end of the `try` block), the process exit status, and the
final console message.  Every handler only prints, so the exit status is 0
on every path. -/
def runScript (e : Env) : Env × Nat × String :=
  match e.input with
  | LoadResult.missingFile => (e, 0, msgFileNotFound)
  | LoadResult.missingOpenpyxl => (e, 0, msgMissingOpenpyxl)
  | LoadResult.badFile => (e, 0, msgGenericError)
  | LoadResult.loaded t =>
    match cleanData t with
    | Except.error _ => (e, 0, msgGenericError)
    | Except.ok t2 => ({ e with outputFile := some t2 }, 0, msgSuccess)

/-- The key-deduplication body once the column position is known. -/
def stepKeyDedupAt (i : Nat) (t : Table) : Table :=
  if 0 < dupCountBy (cellAt i) t.rows then
    { t with rows := dropDupsBy (cellAt i) t.rows [] }
  else t

/-- Rows removed by `dropna` on column `i`, as the script counts them. -/
def dropnaCount (i : Nat) (t : Table) : Nat :=
  t.rows.length - (t.rows.filter (fun r => decide (cellAt i r ≠ Cell.null))).length

/-- The table after `dropna` on column `i`. -/
def dropnaAt (i : Nat) (t : Table) : Table :=
  { t with rows := t.rows.filter (fun r => decide (cellAt i r ≠ Cell.null)) }

/-- The count of missing e-mail values the fill step reports. -/
def emailNullCount (t : Table) : Nat :=
  match colIdx "email" t.headers with
  | none => 0
  | some k => t.rows.countP (fun r => decide (cellAt k r = Cell.null))

/-- The four change counts a re-run of the script reports, computed exactly as
the script computes them (in pipeline order, each on the intermediate table the
script would hold at that point), with the deduplication key column named by
`keyCol`; the script hardcodes `'Customer Id'` there.  The counts are: exact
duplicate rows, key-duplicate rows, rows missing the identifier, and missing
e-mail values. -/
def passCounts (keyCol : String) (t : Table) : Except PError (Nat × Nat × Nat × Nat) :=
  match colIdx keyCol (stepDedupRows t).headers with
  | none => Except.error (PError.keyError keyCol)
  | some i =>
    match colIdx "customer_id"
        (stepRenameHeaders (stepDropIndexCol (stepKeyDedupAt i (stepDedupRows t)))).headers with
    | none => Except.error (PError.keyError "customer_id")
    | some j =>
      Except.ok
        (dupCountBy (fun r => r) t.rows,
         dupCountBy (cellAt i) (stepDedupRows t).rows,
         dropnaCount j (stepRenameHeaders (stepDropIndexCol (stepKeyDedupAt i (stepDedupRows t)))),
         emailNullCount
           (dropnaAt j (stepRenameHeaders (stepDropIndexCol (stepKeyDedupAt i (stepDedupRows t))))))

/-- The column headers of the documented input dataset. -/
def stdHeaders : List String :=
  ["Index", "Customer Id", "First Name", "Last Name", "Company", "City", "Country",
   "Phone 1", "Phone 2", "Email", "Subscription Date", "Website"]

/-- The headers after `'Index'` is dropped and names are normalized. -/
def normHeaders : List String :=
  ["customer_id", "first_name", "last_name", "company", "city", "country",
   "phone_1", "phone_2", "email", "subscription_date", "website"]

/-- Column `i` of `t` satisfies the cell predicate `P` on every row. -/
def ColPred (t : Table) (i : Nat) (P : Cell → Bool) : Prop :=
  ∀ r ∈ t.rows, P (cellAt i r) = true

/-! Concrete tables used to instantiate the theorems. -/

def exTableC1 : Table :=
  Table.mk ["Customer Id", "Phone 1"] [[Cell.str "c1", Cell.str "+1 (555) 010-0000"]]

def exTableC1Out : Table :=
  Table.mk ["customer_id", "phone_1"] [[Cell.str "c1", Cell.str "15550100000"]]

def exTableC2 : Table :=
  Table.mk ["Customer Id", "City"]
    [[Cell.str "a", Cell.num 1], [Cell.str "b", Cell.num 2], [Cell.str "a", Cell.num 3]]

def exTableC2Out : Table :=
  Table.mk ["Customer Id", "City"] [[Cell.str "a", Cell.num 1], [Cell.str "b", Cell.num 2]]

def exTableC3 : Table := Table.mk ["customer_id"] [[Cell.str ""], [Cell.null]]

def exTableC3Out : Table := Table.mk ["customer_id"] [[Cell.str ""]]

def exTableC4 : Table := Table.mk ["Customer Id", "First Name"] [[Cell.str "a", Cell.null]]

def exTableC4Out : Table := Table.mk ["customer_id", "first_name"] [[Cell.str "a", Cell.str "nan"]]

def exTableC5 : Table :=
  Table.mk ["Customer Id", "Email"]
    [[Cell.str "a", Cell.null], [Cell.str "b", Cell.str ""]]

def exTableC5Out : Table :=
  Table.mk ["customer_id", "email"]
    [[Cell.str "a", Cell.str "n/a"], [Cell.str "b", Cell.str ""]]

def exTableEmail : Table := Table.mk ["email"] [[Cell.null], [Cell.str "x"]]

def exTableNoKey : Table := Table.mk ["foo"] [[Cell.str "x"]]

def exEnvC6 : Env := Env.mk (LoadResult.loaded exTableNoKey) (some exTableC2Out)

def exTableC7 : Table :=
  Table.mk stdHeaders
    [[Cell.num 1, Cell.str "c1", Cell.str "ann", Cell.str "lee", Cell.str "co", Cell.str "rome",
      Cell.str "it", Cell.str "555-111", Cell.str "222", Cell.str "a@b.c",
      Cell.str "2020-01-02", Cell.str "www"]]

def exTableC7Out : Table :=
  Table.mk normHeaders
    [[Cell.str "c1", Cell.str "ann", Cell.str "lee", Cell.str "co", Cell.str "rome",
      Cell.str "it", Cell.str "555111", Cell.str "222", Cell.str "a@b.c",
      Cell.date 20200102, Cell.str "www"]]

def exTableC8 : Table :=
  Table.mk ["subscription_date"] [[Cell.str "2020-01-02"], [Cell.str "junk"], [Cell.null]]

/-! Basic list helpers. -/

theorem getD_set_if {α : Type} (l : List α) (i : Nat) (c d : α) :
    (l.set i c).getD i d = if i < l.length then c else d := by
  induction l generalizing i with
  | nil => simp
  | cons a l ih =>
    cases i with
    | zero => simp
    | succ n => simpa using ih n

theorem getD_set_ne {α : Type} (l : List α) (i j : Nat) (c d : α) (h : i ≠ j) :
    (l.set i c).getD j d = l.getD j d := by
  induction l generalizing i j with
  | nil => simp
  | cons a l ih =>
    cases i with
    | zero =>
      cases j with
      | zero => exact absurd rfl h
      | succ m => simp
    | succ n =>
      cases j with
      | zero => simp
      | succ m => simpa using ih n m (fun hnm => h (by omega))

theorem set_getD_self {α : Type} (l : List α) (i : Nat) (d : α) :
    l.set i (l.getD i d) = l := by
  induction l generalizing i with
  | nil => simp
  | cons a l ih =>
    cases i with
    | zero => simp
    | succ n => simpa using ih n

theorem getD_eraseIdx_zero {α : Type} (l : List α) (k : Nat) (d : α) :
    (l.eraseIdx 0).getD k d = l.getD (k + 1) d := by
  cases l <;> simp [List.eraseIdx]

theorem map_eq_self_of_forall {α : Type} (l : List α) (f : α → α) (h : ∀ x ∈ l, f x = x) :
    l.map f = l := by
  induction l with
  | nil => rfl
  | cons a l ih =>
    simp only [List.map_cons, h a (List.mem_cons_self a l)]
    rw [ih (fun x hx => h x (List.mem_cons_of_mem a hx))]

theorem find?_ext {α : Type} (p q : α → Bool) (h : ∀ a, p a = q a) (l : List α) :
    l.find? p = l.find? q := by
  induction l with
  | nil => rfl
  | cons a l ih =>
    cases hq : q a
    · rw [List.find?_cons_of_neg _ (by simp [h a, hq]), List.find?_cons_of_neg _ (by simp [hq]), ih]
    · rw [List.find?_cons_of_pos _ (by simp [h a, hq]), List.find?_cons_of_pos _ (by simp [hq])]

theorem filter_take_one {α : Type} (p : α → Bool) (l : List α) :
    (l.filter p).take 1 = (l.find? p).toList := by
  induction l with
  | nil => rfl
  | cons a l ih =>
    cases ha : p a
    · rw [List.filter_cons_of_neg (by simp [ha]), List.find?_cons_of_neg _ (by simp [ha]), ih]
    · rw [List.filter_cons_of_pos ha, List.find?_cons_of_pos _ ha]
      rfl

theorem find?_some_of_mem_map {α β : Type} [DecidableEq β] (f : α → β) (l : List α) (k : β)
    (h : k ∈ l.map f) : ∃ w, l.find? (fun a => decide (f a = k)) = some w := by
  have : (l.find? (fun a => decide (f a = k))).isSome := by
    rw [List.find?_isSome]
    obtain ⟨a, ha, hfa⟩ := List.mem_map.mp h
    exact ⟨a, ha, by simp [hfa]⟩
  cases hw : l.find? (fun a => decide (f a = k)) with
  | none => rw [hw] at this; cases this
  | some w => exact ⟨w, rfl⟩

/-! Properties of `dropDupsBy`. -/

theorem dropDupsBy_sublist {α β : Type} [DecidableEq β] (f : α → β) :
    ∀ (xs : List α) (seen : List β), List.Sublist (dropDupsBy f xs seen) xs := by
  intro xs
  induction xs with
  | nil => intro seen; simp [dropDupsBy]
  | cons x xs ih =>
    intro seen
    rw [dropDupsBy]
    split
    · exact (ih seen).cons x
    · exact (ih (f x :: seen)).cons₂ x

theorem dropDupsBy_filter {α β : Type} [DecidableEq β] (f : α → β) (k : β) :
    ∀ (xs : List α) (seen : List β),
      (dropDupsBy f xs seen).filter (fun a => decide (f a = k)) =
        if k ∈ seen then [] else (xs.filter (fun a => decide (f a = k))).take 1 := by
  intro xs
  induction xs with
  | nil => intro seen; simp [dropDupsBy]
  | cons x xs ih =>
    intro seen
    rw [dropDupsBy]
    by_cases hx : f x ∈ seen
    · rw [if_pos hx, ih]
      by_cases hk : k ∈ seen
      · simp [hk]
      · have hne : ¬ (f x = k) := fun h => hk (h ▸ hx)
        rw [if_neg hk, if_neg hk, List.filter_cons_of_neg (by simp [hne])]
    · rw [if_neg hx]
      by_cases hfk : f x = k
      · subst hfk
        rw [List.filter_cons_of_pos (by simp), ih, if_pos (List.mem_cons_self _ _),
          if_neg hx, List.filter_cons_of_pos (by simp)]
        rfl
      · rw [List.filter_cons_of_neg (by simp [hfk]), ih]
        by_cases hk : k ∈ seen
        · rw [if_pos (List.mem_cons_of_mem _ hk), if_pos hk]
        · have hkc : k ∉ f x :: seen := by
            rw [List.mem_cons]
            rintro (h | h)
            · exact hfk h.symm
            · exact hk h
          rw [if_neg hkc, if_neg hk, List.filter_cons_of_neg (by simp [hfk])]

theorem dropDupsBy_id_find? {α : Type} [DecidableEq α] (p : α → Bool) :
    ∀ (xs seen : List α),
      (dropDupsBy (fun a => a) xs seen).find? p =
        xs.find? (fun a => p a && decide (a ∉ seen)) := by
  intro xs
  induction xs with
  | nil => intro seen; simp [dropDupsBy]
  | cons x xs ih =>
    intro seen
    rw [dropDupsBy]
    by_cases hx : x ∈ seen
    · rw [if_pos hx, ih, List.find?_cons_of_neg _ (by simp [hx])]
    · rw [if_neg hx]
      cases hpx : p x
      · rw [List.find?_cons_of_neg _ (by simp [hpx]),
          List.find?_cons_of_neg _ (by simp [hpx]), ih]
        apply find?_ext
        intro a
        by_cases hax : a = x
        · subst hax; simp [hpx]
        · simp [List.mem_cons, hax]
      · rw [List.find?_cons_of_pos _ (by simp [hpx]),
          List.find?_cons_of_pos _ (by simp [hpx, hx])]

theorem dropDupsBy_map_nodup {α β : Type} [DecidableEq β] (f : α → β) :
    ∀ (xs : List α) (seen : List β),
      ((dropDupsBy f xs seen).map f).Nodup ∧
        ∀ b ∈ (dropDupsBy f xs seen).map f, b ∉ seen := by
  intro xs
  induction xs with
  | nil => intro seen; simp [dropDupsBy]
  | cons x xs ih =>
    intro seen
    rw [dropDupsBy]
    by_cases hx : f x ∈ seen
    · rw [if_pos hx]; exact ih seen
    · rw [if_neg hx]
      obtain ⟨hnd, hmem⟩ := ih (f x :: seen)
      refine ⟨?_, ?_⟩
      · rw [List.map_cons, List.nodup_cons]
        exact ⟨fun hc => (hmem _ hc) (List.mem_cons_self _ _), hnd⟩
      · intro b hb
        rw [List.map_cons, List.mem_cons] at hb
        rcases hb with hb | hb
        · exact hb ▸ hx
        · exact fun hc => (hmem b hb) (List.mem_cons_of_mem _ hc)

theorem dropDupsBy_eq_self {α β : Type} [DecidableEq β] (f : α → β) :
    ∀ (xs : List α) (seen : List β), (xs.map f).Nodup → (∀ x ∈ xs, f x ∉ seen) →
      dropDupsBy f xs seen = xs := by
  intro xs
  induction xs with
  | nil => intro seen _ _; rfl
  | cons x xs ih =>
    intro seen hnd hseen
    rw [dropDupsBy, if_neg (hseen x (List.mem_cons_self _ _))]
    rw [List.map_cons, List.nodup_cons] at hnd
    congr 1
    refine ih (f x :: seen) hnd.2 ?_
    intro y hy
    rw [List.mem_cons]
    rintro (hyx | hys)
    · exact hnd.1 (hyx ▸ List.mem_map_of_mem f hy)
    · exact hseen y (List.mem_cons_of_mem _ hy) hys

theorem dupCountBy_eq_zero_of_nodup {α β : Type} [DecidableEq β] (f : α → β) (xs : List α)
    (h : (xs.map f).Nodup) : dupCountBy f xs = 0 := by
  rw [dupCountBy, dropDupsBy_eq_self f xs [] h (by simp), Nat.sub_self]

theorem dropDupsBy_eq_of_count_zero {α β : Type} [DecidableEq β] (f : α → β) (xs : List α)
    (h : dupCountBy f xs = 0) : dropDupsBy f xs [] = xs := by
  have hs := dropDupsBy_sublist f xs []
  have hle := hs.length_le
  rw [dupCountBy] at h
  exact hs.eq_of_length (by omega)

theorem getD_of_le {α : Type} (l : List α) (n : Nat) (d : α) (h : l.length ≤ n) :
    l.getD n d = d := by
  simp [List.getD_eq_getElem?_getD, List.getElem?_eq_none h]

theorem colIdx_lt_length {n : String} :
    ∀ {hs : List String} {i : Nat}, colIdx n hs = some i → i < hs.length := by
  intro hs
  induction hs with
  | nil => intro i h; cases h
  | cons a hs ih =>
    intro i h
    rw [colIdx] at h
    split at h
    · cases h; simp
    · obtain ⟨j, hj, hji⟩ := Option.map_eq_some'.mp h
      have := ih hj
      simp only [List.length_cons]
      omega

/-! Structural facts about the pipeline steps. -/

theorem stepDedupRows_eq (t : Table) :
    stepDedupRows t = { t with rows := dropDupsBy (fun r => r) t.rows [] } := by
  rw [stepDedupRows]
  split
  · rfl
  · rename_i h
    have h0 : dupCountBy (fun r => r) t.rows = 0 := by omega
    rw [dropDupsBy_eq_of_count_zero _ _ h0]

theorem stepDedupIds_eq (t : Table) (i : Nat) (h : colIdx "Customer Id" t.headers = some i) :
    stepDedupIds t = Except.ok { t with rows := dropDupsBy (cellAt i) t.rows [] } := by
  rw [stepDedupIds, h]
  simp only
  split
  · rfl
  · rename_i hlt
    have h0 : dupCountBy (cellAt i) t.rows = 0 := by omega
    rw [dropDupsBy_eq_of_count_zero _ _ h0]

theorem stepDedupRows_headers (t : Table) : (stepDedupRows t).headers = t.headers := by
  rw [stepDedupRows_eq]

theorem mapCol_headers (t : Table) (n : String) (f : Cell → Cell) :
    (mapCol t n f).headers = t.headers := by
  cases hc : colIdx n t.headers <;> simp [mapCol, hc]

theorem mapCol_wf (t : Table) (n : String) (f : Cell → Cell) (h : WF t) : WF (mapCol t n f) := by
  cases hc : colIdx n t.headers with
  | none => simpa [mapCol, hc] using h
  | some i =>
    intro r hr
    simp only [mapCol, hc] at hr ⊢
    obtain ⟨r₀, hr₀, rfl⟩ := List.mem_map.mp hr
    rw [List.length_set]
    exact h r₀ hr₀

theorem foldl_mapCol_headers (f : Cell → Cell) :
    ∀ (ns : List String) (t : Table),
      (ns.foldl (fun acc c => mapCol acc c f) t).headers = t.headers := by
  intro ns
  induction ns with
  | nil => intro t; rfl
  | cons m ms ih =>
    intro t
    rw [List.foldl_cons, ih, mapCol_headers]

theorem foldl_mapCol_wf (f : Cell → Cell) :
    ∀ (ns : List String) (t : Table), WF t →
      WF (ns.foldl (fun acc c => mapCol acc c f) t) := by
  intro ns
  induction ns with
  | nil => intro t h; exact h
  | cons m ms ih =>
    intro t h
    rw [List.foldl_cons]
    exact ih _ (mapCol_wf t m f h)

theorem stepDropIndexCol_wf (t : Table) (h : WF t) : WF (stepDropIndexCol t) := by
  cases hc : colIdx "Index" t.headers with
  | none => simpa [stepDropIndexCol, hc] using h
  | some i =>
    have hi : i < t.headers.length := colIdx_lt_length hc
    intro r hr
    simp only [stepDropIndexCol, hc] at hr ⊢
    obtain ⟨r₀, hr₀, rfl⟩ := List.mem_map.mp hr
    have hlen := h r₀ hr₀
    rw [List.length_eraseIdx, List.length_eraseIdx]
    simp [hi, hlen ▸ hi, hlen]

theorem stepRenameHeaders_headers (t : Table) :
    (stepRenameHeaders t).headers = t.headers.map normalizeName := rfl

theorem stepRenameHeaders_wf (t : Table) (h : WF t) : WF (stepRenameHeaders t) := by
  intro r hr
  simp only [stepRenameHeaders, List.length_map]
  exact h r hr

theorem stepDedupRows_wf (t : Table) (h : WF t) : WF (stepDedupRows t) := by
  rw [stepDedupRows_eq]
  intro r hr
  exact h r ((dropDupsBy_sublist _ _ _).subset hr)

theorem stepDedupIds_wf (t t' : Table) (h : stepDedupIds t = Except.ok t') (hwf : WF t) :
    WF t' := by
  rw [stepDedupIds] at h
  cases hc : colIdx "Customer Id" t.headers <;> rw [hc] at h
  · cases h
  · simp only [Except.ok.injEq] at h
    subst h
    split
    · intro r hr
      exact hwf r ((dropDupsBy_sublist _ _ _).subset hr)
    · exact hwf

theorem stepDedupIds_headers (t t' : Table) (h : stepDedupIds t = Except.ok t') :
    t'.headers = t.headers := by
  rw [stepDedupIds] at h
  cases hc : colIdx "Customer Id" t.headers <;> rw [hc] at h
  · cases h
  · simp only [Except.ok.injEq] at h
    subst h
    split <;> rfl

theorem stepDropMissingIds_wf (t t' : Table) (h : stepDropMissingIds t = Except.ok t')
    (hwf : WF t) : WF t' := by
  rw [stepDropMissingIds] at h
  cases hc : colIdx "customer_id" t.headers <;> rw [hc] at h
  · cases h
  · simp only [Except.ok.injEq] at h
    subst h
    intro r hr
    exact hwf r ((List.filter_sublist _).subset hr)

theorem stepDropMissingIds_headers (t t' : Table) (h : stepDropMissingIds t = Except.ok t') :
    t'.headers = t.headers := by
  rw [stepDropMissingIds] at h
  cases hc : colIdx "customer_id" t.headers <;> rw [hc] at h
  · cases h
  · simp only [Except.ok.injEq] at h
    subst h
    rfl

theorem stepFillEmail_headers (t : Table) : (stepFillEmail t).headers = t.headers := by
  cases hc : colIdx "email" t.headers with
  | none => simp [stepFillEmail, hc]
  | some i =>
    simp only [stepFillEmail, hc]
    split
    · exact mapCol_headers t "email" fillNACell
    · rfl

theorem stepFillEmail_wf (t : Table) (h : WF t) : WF (stepFillEmail t) := by
  cases hc : colIdx "email" t.headers with
  | none => simpa [stepFillEmail, hc] using h
  | some i =>
    simp only [stepFillEmail, hc]
    split
    · exact mapCol_wf t "email" fillNACell h
    · exact h

theorem stepParseDates_headers (t : Table) : (stepParseDates t).headers = t.headers := by
  cases hc : colIdx "subscription_date" t.headers with
  | none => simp [stepParseDates, hc]
  | some i =>
    simp only [stepParseDates, hc]
    split
    · rfl
    · exact mapCol_headers t "subscription_date" coerceDateCell

theorem stepParseDates_wf (t : Table) (h : WF t) : WF (stepParseDates t) := by
  cases hc : colIdx "subscription_date" t.headers with
  | none => simpa [stepParseDates, hc] using h
  | some i =>
    simp only [stepParseDates, hc]
    split
    · exact h
    · exact mapCol_wf t "subscription_date" coerceDateCell h

theorem stepTextColumns_headers (t : Table) : (stepTextColumns t).headers = t.headers :=
  foldl_mapCol_headers textNormCell textColumns t

theorem stepTextColumns_wf (t : Table) (h : WF t) : WF (stepTextColumns t) :=
  foldl_mapCol_wf textNormCell textColumns t h

theorem stepPhoneColumns_headers (t : Table) : (stepPhoneColumns t).headers = t.headers :=
  foldl_mapCol_headers digitsOnlyCell phoneColumns t

theorem stepPhoneColumns_wf (t : Table) (h : WF t) : WF (stepPhoneColumns t) :=
  foldl_mapCol_wf digitsOnlyCell phoneColumns t h

theorem tailSteps_headers (t : Table) : (tailSteps t).headers = t.headers := by
  rw [tailSteps, stepPhoneColumns_headers, stepTextColumns_headers, stepParseDates_headers,
    stepFillEmail_headers]

theorem tailSteps_wf (t : Table) (h : WF t) : WF (tailSteps t) :=
  stepPhoneColumns_wf _ (stepTextColumns_wf _ (stepParseDates_wf _ (stepFillEmail_wf _ h)))

theorem cleanData_ok_iff (t t' : Table) :
    cleanData t = Except.ok t' ↔
      ∃ t3 t6, stepDedupIds (stepDedupRows t) = Except.ok t3 ∧
        stepDropMissingIds (stepRenameHeaders (stepDropIndexCol t3)) = Except.ok t6 ∧
        t' = tailSteps t6 := by
  cases h3 : stepDedupIds (stepDedupRows t) with
  | error e =>
    rw [cleanData, h3]
    constructor
    · intro h; cases h
    · rintro ⟨t3, t6, h, -, -⟩; cases h
  | ok t3 =>
    cases h6 : stepDropMissingIds (stepRenameHeaders (stepDropIndexCol t3)) with
    | error e =>
      simp only [cleanData, h3, h6]
      constructor
      · intro h; cases h
      · rintro ⟨u3, u6, hu3, hu6, -⟩
        cases hu3
        rw [h6] at hu6
        cases hu6
    | ok t6 =>
      simp only [cleanData, h3, h6, Except.ok.injEq]
      constructor
      · intro h
        exact ⟨t3, t6, rfl, h6, h.symm⟩
      · rintro ⟨u3, u6, hu3, hu6, he⟩
        cases hu3
        rw [h6] at hu6
        cases hu6
        exact he.symm

theorem cleanData_wf (t t' : Table) (h : cleanData t = Except.ok t') (hwf : WF t) : WF t' := by
  rw [cleanData_ok_iff] at h
  obtain ⟨t3, t6, h3, h6, he⟩ := h
  rw [he]
  exact tailSteps_wf _ (stepDropMissingIds_wf _ _ h6 (stepRenameHeaders_wf _
    (stepDropIndexCol_wf _ (stepDedupIds_wf _ _ h3 (stepDedupRows_wf t hwf)))))

/-! Column-predicate and column-value preservation machinery. -/

theorem mapCol_colPred_of_range (t : Table) (n : String) (f : Cell → Cell) (P : Cell → Bool)
    (i : Nat) (hf : ∀ c, P (f c) = true) (h : ColPred t i P) : ColPred (mapCol t n f) i P := by
  cases hc : colIdx n t.headers with
  | none => simpa [mapCol, hc] using h
  | some j =>
    intro r hr
    simp only [mapCol, hc] at hr
    obtain ⟨r₀, hr₀, rfl⟩ := List.mem_map.mp hr
    by_cases hij : j = i
    · subst hij
      rw [cellAt, getD_set_if]
      split
      · exact hf _
      · rename_i hlen
        have hnull : cellAt j r₀ = Cell.null := getD_of_le r₀ j Cell.null (by omega)
        have hp := h r₀ hr₀
        rw [hnull] at hp
        exact hp
    · rw [cellAt, getD_set_ne _ _ _ _ _ hij]
      exact h r₀ hr₀

theorem mapCol_colPred_target (t : Table) (n : String) (f : Cell → Cell) (P : Cell → Bool)
    (i : Nat) (hwf : WF t) (hc : colIdx n t.headers = some i) (hf : ∀ c, P (f c) = true) :
    ColPred (mapCol t n f) i P := by
  intro r hr
  simp only [mapCol, hc] at hr
  obtain ⟨r₀, hr₀, rfl⟩ := List.mem_map.mp hr
  rw [cellAt, getD_set_if, if_pos]
  · exact hf _
  · rw [hwf r₀ hr₀]
    exact colIdx_lt_length hc

theorem foldl_mapCol_colPred_of_range (f : Cell → Cell) (P : Cell → Bool)
    (hf : ∀ c, P (f c) = true) :
    ∀ (ns : List String) (t : Table) (i : Nat), ColPred t i P →
      ColPred (ns.foldl (fun acc c => mapCol acc c f) t) i P := by
  intro ns
  induction ns with
  | nil => intro t i h; exact h
  | cons m ms ih =>
    intro t i h
    rw [List.foldl_cons]
    exact ih _ i (mapCol_colPred_of_range t m f P i hf h)

theorem foldl_mapCol_colPred_target (f : Cell → Cell) (P : Cell → Bool)
    (hf : ∀ c, P (f c) = true) :
    ∀ (ns : List String) (t : Table) (i : Nat) (n : String), WF t → n ∈ ns →
      colIdx n t.headers = some i →
      ColPred (ns.foldl (fun acc c => mapCol acc c f) t) i P := by
  intro ns
  induction ns with
  | nil => intro t i n _ hn; cases hn
  | cons m ms ih =>
    intro t i n hwf hn hc
    rw [List.foldl_cons]
    rcases List.mem_cons.mp hn with rfl | hn'
    · exact foldl_mapCol_colPred_of_range f P hf ms _ i
        (mapCol_colPred_target t n f P i hwf hc hf)
    · exact ih (mapCol t m f) i n (mapCol_wf t m f hwf) hn'
        (by rw [mapCol_headers]; exact hc)

theorem mapCol_colVals_ne (t : Table) (n : String) (f : Cell → Cell) (i : Nat)
    (h : colIdx n t.headers ≠ some i) :
    (mapCol t n f).rows.map (cellAt i) = t.rows.map (cellAt i) := by
  cases hc : colIdx n t.headers with
  | none => simp [mapCol, hc]
  | some j =>
    have hji : j ≠ i := fun e => h (e ▸ hc)
    simp only [mapCol, hc, List.map_map]
    apply List.map_congr_left
    intro r hr
    simp only [Function.comp_apply]
    rw [cellAt, getD_set_ne _ _ _ _ _ hji]
    rfl

theorem foldl_mapCol_colVals (f : Cell → Cell) :
    ∀ (ns : List String) (t : Table) (i : Nat), (∀ n ∈ ns, colIdx n t.headers ≠ some i) →
      (ns.foldl (fun acc c => mapCol acc c f) t).rows.map (cellAt i) =
        t.rows.map (cellAt i) := by
  intro ns
  induction ns with
  | nil => intro t i _; rfl
  | cons m ms ih =>
    intro t i h
    rw [List.foldl_cons]
    rw [ih (mapCol t m f) i (fun n hn => by
      rw [mapCol_headers]
      exact h n (List.mem_cons_of_mem m hn))]
    exact mapCol_colVals_ne t m f i (h m (List.mem_cons_self m ms))

theorem stepFillEmail_colVals (t : Table) (i : Nat) (h : colIdx "email" t.headers ≠ some i) :
    (stepFillEmail t).rows.map (cellAt i) = t.rows.map (cellAt i) := by
  cases hc : colIdx "email" t.headers with
  | none => simp [stepFillEmail, hc]
  | some j =>
    simp only [stepFillEmail, hc]
    split
    · exact mapCol_colVals_ne t "email" fillNACell i h
    · rfl

theorem stepParseDates_colVals (t : Table) (i : Nat)
    (h : colIdx "subscription_date" t.headers ≠ some i) :
    (stepParseDates t).rows.map (cellAt i) = t.rows.map (cellAt i) := by
  cases hc : colIdx "subscription_date" t.headers with
  | none => simp [stepParseDates, hc]
  | some j =>
    simp only [stepParseDates, hc]
    split
    · rfl
    · exact mapCol_colVals_ne t "subscription_date" coerceDateCell i h

theorem colPred_of_colVals {t t' : Table} {i : Nat} {P : Cell → Bool}
    (hv : t'.rows.map (cellAt i) = t.rows.map (cellAt i)) (h : ColPred t i P) :
    ColPred t' i P := by
  intro r hr
  have hm : cellAt i r ∈ t'.rows.map (cellAt i) := List.mem_map_of_mem _ hr
  rw [hv] at hm
  obtain ⟨r₀, hr₀, he⟩ := List.mem_map.mp hm
  rw [← he]
  exact h r₀ hr₀

/-! The keep-first deduplication expressed through the library dedup. -/

theorem dedup_append_single {α : Type} [DecidableEq α] (x : α) :
    ∀ l : List α, (l ++ [x]).dedup = (l.filter (fun a => decide (a ≠ x))).dedup ++ [x] := by
  intro l
  induction l with
  | nil => simp
  | cons a l ih =>
    by_cases hax : a = x
    · subst hax
      rw [List.cons_append, List.dedup_cons_of_mem (by simp), ih,
        List.filter_cons_of_neg (by simp)]
    · by_cases hal : a ∈ l
      · rw [List.cons_append, List.dedup_cons_of_mem (by simp [hal]), ih,
          List.filter_cons_of_pos (by simp [hax]),
          List.dedup_cons_of_mem (List.mem_filter.mpr ⟨hal, by simp [hax]⟩)]
      · have hnx : a ∉ l ++ [x] := by
          rw [List.mem_append]
          rintro (h | h)
          · exact hal h
          · rw [List.mem_singleton] at h
            exact hax h
        rw [List.cons_append, List.dedup_cons_of_not_mem hnx, ih,
          List.filter_cons_of_pos (by simp [hax]),
          List.dedup_cons_of_not_mem (fun hc => hal (List.mem_filter.mp hc).1),
          List.cons_append]

theorem dropDupsBy_id_eq_revdedup {α : Type} [DecidableEq α] :
    ∀ (xs seen : List α),
      dropDupsBy (fun a => a) xs seen =
        ((xs.filter (fun a => decide (a ∉ seen))).reverse.dedup).reverse := by
  intro xs
  induction xs with
  | nil => intro seen; simp [dropDupsBy]
  | cons x xs ih =>
    intro seen
    rw [dropDupsBy]
    by_cases hx : x ∈ seen
    · rw [if_pos hx, ih, List.filter_cons_of_neg (by simp [hx])]
    · rw [if_neg hx, ih, List.filter_cons_of_pos (by simp [hx]), List.reverse_cons,
        dedup_append_single, List.reverse_append]
      have hfe : ((xs.filter (fun a => decide (a ∉ seen))).reverse.filter
          (fun a => decide (a ≠ x))) =
          (xs.filter (fun a => decide (a ∉ x :: seen))).reverse := by
        rw [List.filter_reverse, List.filter_filter]
        congr 1
        apply List.filter_congr
        intro a _
        by_cases hax : a = x
        · subst hax; simp
        · simp [hax, List.mem_cons]
      rw [hfe]
      rfl

/-- Pairing a list with its image: used to speak about one step cellwise. -/
theorem zip_self_map {α : Type} (g : α → α) :
    ∀ l : List α, l.zip (l.map g) = l.map (fun a => (a, g a)) := by
  intro l
  induction l with
  | nil => rfl
  | cons a l ih => simp [List.zip_cons_cons, ih]

theorem zip_self {α : Type} :
    ∀ l : List α, l.zip l = l.map (fun a => (a, a)) := by
  intro l
  have := zip_self_map (fun a => a) l
  simpa using this

/-! Small cell-level helpers shared by the claim theorems. -/

theorem cellIsDigits_digitsOnlyCell (c : Cell) : cellIsDigits (digitsOnlyCell c) = true := by
  show ((cellToStr c).data.filter Char.isDigit).all Char.isDigit = true
  rw [List.all_eq_true]
  intro x hx
  exact (List.mem_filter.mp hx).2

theorem cellIsStr_textNormCell (c : Cell) : cellIsStr (textNormCell c) = true := rfl

theorem cellIsStr_digitsOnlyCell (c : Cell) : cellIsStr (digitsOnlyCell c) = true := rfl

theorem stepDropMissingIds_eq (t : Table) (i : Nat) (hc : colIdx "customer_id" t.headers = some i) :
    stepDropMissingIds t =
      Except.ok { t with rows := t.rows.filter (fun r => decide (cellAt i r ≠ Cell.null)) } := by
  rw [stepDropMissingIds, hc]

/-- C9: exact-duplicate removal.  Step 2 deletes exactly the rows fully equal
to an earlier row: its result has one row per distinct row of the input (the
post-step row count is the input's distinct-row count), no two remaining rows
are identical, and the kept representative of every group of equal rows is the
first occurrence in input order — the rows are exactly the input read
back-to-front, deduplicated keeping last, reversed again, which is the
keep-first deduplication. -/
theorem claim_C9 (t : Table) :
    (stepDedupRows t).headers = t.headers ∧
    (stepDedupRows t).rows.length = t.rows.dedup.length ∧
    (stepDedupRows t).rows.Nodup ∧
    (stepDedupRows t).rows = t.rows.reverse.dedup.reverse := by
  have hrows : (stepDedupRows t).rows = t.rows.reverse.dedup.reverse := by
    rw [stepDedupRows_eq]
    show dropDupsBy (fun r => r) t.rows [] = _
    rw [dropDupsBy_id_eq_revdedup]
    congr 2
    simp
  refine ⟨stepDedupRows_headers t, ?_, ?_, hrows⟩
  · rw [hrows, List.length_reverse]
    exact ((t.rows.reverse_perm).dedup).length_eq
  · rw [hrows, List.nodup_reverse]
    exact t.rows.reverse.nodup_dedup

/-- C2: key-duplicate removal.  When the `'Customer Id'` column is present at
position `i`, the table after Step 3 (exact dedup then key dedup) carries
pairwise distinct identifier values, and for every identifier value occurring
in the input there is exactly one surviving row with that value, namely the
first row of the original table carrying it. -/
theorem claim_C2 (t : Table) (i : Nat) (hc : colIdx "Customer Id" t.headers = some i)
    (t3 : Table) (h3 : stepDedupIds (stepDedupRows t) = Except.ok t3) :
    (t3.rows.map (cellAt i)).Nodup ∧
    ∀ k ∈ t.rows.map (cellAt i), ∃ w,
      t.rows.find? (fun r => decide (cellAt i r = k)) = some w ∧
      t3.rows.filter (fun r => decide (cellAt i r = k)) = [w] := by
  have hc2 : colIdx "Customer Id" (stepDedupRows t).headers = some i := by
    rw [stepDedupRows_headers]
    exact hc
  rw [stepDedupIds_eq _ i hc2] at h3
  cases h3
  constructor
  · exact (dropDupsBy_map_nodup (cellAt i) (stepDedupRows t).rows []).1
  · intro k hk
    obtain ⟨w, hw⟩ := find?_some_of_mem_map (cellAt i) t.rows k hk
    refine ⟨w, hw, ?_⟩
    show (dropDupsBy (cellAt i) (stepDedupRows t).rows []).filter _ = [w]
    rw [dropDupsBy_filter, if_neg (List.not_mem_nil k), filter_take_one, stepDedupRows_eq]
    show ((dropDupsBy (fun r => r) t.rows []).find? _).toList = [w]
    rw [dropDupsBy_id_find?]
    have hext := find?_ext
      (fun a => decide (cellAt i a = k) && decide (a ∉ ([] : List Row)))
      (fun r => decide (cellAt i r = k)) (fun a => by simp) t.rows
    rw [hext, hw]
    rfl

theorem claim_C2_witness :
    (exTableC2Out.rows.map (cellAt 0)).Nodup ∧
    ∃ w, exTableC2.rows.find? (fun r => decide (cellAt 0 r = Cell.str "a")) = some w ∧
      exTableC2Out.rows.filter (fun r => decide (cellAt 0 r = Cell.str "a")) = [w] := by
  have h := claim_C2 exTableC2 0 rfl exTableC2Out rfl
  exact ⟨h.1, h.2 (Cell.str "a") (by decide)⟩

/-- C8: type normalization.  When `subscription_date` is present at position
`i`, Step 8 removes no rows (the row count is unchanged), and cellwise the
resulting entry is the parse of the old entry under `errors='coerce'`: the
parsed timestamp when parsing succeeds, and null when parsing fails. -/
theorem claim_C8 (t : Table) (i : Nat) (hc : colIdx "subscription_date" t.headers = some i) :
    (stepParseDates t).rows.length = t.rows.length ∧
    (∀ p ∈ t.rows.zip ((stepParseDates t).rows), cellAt i p.2 = coerceDateCell (cellAt i p.1)) ∧
    (∀ c, parseDateCell c = none → coerceDateCell c = Cell.null) := by
  have hcoe : ∀ c, parseDateCell c = none → coerceDateCell c = Cell.null := by
    intro c h
    unfold coerceDateCell
    rw [h]
  simp only [stepParseDates, hc]
  by_cases hall : t.rows.all (fun r => isDateLike (cellAt i r)) = true
  · rw [if_pos hall]
    refine ⟨rfl, ?_, hcoe⟩
    rw [zip_self]
    intro p hp
    obtain ⟨r, hr, rfl⟩ := List.mem_map.mp hp
    have hd : isDateLike (cellAt i r) = true := by
      rw [List.all_eq_true] at hall
      exact hall r hr
    cases hcell : cellAt i r <;> rw [hcell] at hd
    · rfl
    · cases hd
    · cases hd
    · rfl
  · rw [if_neg hall]
    simp only [mapCol, hc]
    refine ⟨(List.length_map _ _).symm ▸ rfl, ?_, hcoe⟩
    rw [zip_self_map]
    intro p hp
    obtain ⟨r, hr, rfl⟩ := List.mem_map.mp hp
    show cellAt i (r.set i (coerceDateCell (cellAt i r))) = coerceDateCell (cellAt i r)
    rw [cellAt, getD_set_if]
    split
    · rfl
    · rename_i hlen
      have hnull : cellAt i r = Cell.null := getD_of_le r i Cell.null (by omega)
      rw [hnull]
      rfl

theorem claim_C8_witness :
    (stepParseDates exTableC8).rows.length = exTableC8.rows.length ∧
    (∀ p ∈ exTableC8.rows.zip ((stepParseDates exTableC8).rows),
      cellAt 0 p.2 = coerceDateCell (cellAt 0 p.1)) ∧
    (∀ c, parseDateCell c = none → coerceDateCell c = Cell.null) :=
  claim_C8 exTableC8 0 rfl

theorem stepPhoneColumns_colPred_target (t : Table) (i : Nat) (n : String) (hwf : WF t)
    (hn : n ∈ phoneColumns) (hc : colIdx n t.headers = some i) :
    ColPred (stepPhoneColumns t) i cellIsDigits := by
  show ColPred (phoneColumns.foldl (fun acc c => mapCol acc c digitsOnlyCell) t) i cellIsDigits
  exact foldl_mapCol_colPred_target digitsOnlyCell cellIsDigits cellIsDigits_digitsOnlyCell
    phoneColumns t i n hwf hn hc

theorem stepTextColumns_colPred_target (t : Table) (i : Nat) (n : String) (hwf : WF t)
    (hn : n ∈ textColumns) (hc : colIdx n t.headers = some i) :
    ColPred (stepTextColumns t) i cellIsStr := by
  show ColPred (textColumns.foldl (fun acc c => mapCol acc c textNormCell) t) i cellIsStr
  exact foldl_mapCol_colPred_target textNormCell cellIsStr cellIsStr_textNormCell
    textColumns t i n hwf hn hc

theorem stepPhoneColumns_colPred_str (t : Table) (i : Nat) (h : ColPred t i cellIsStr) :
    ColPred (stepPhoneColumns t) i cellIsStr := by
  show ColPred (phoneColumns.foldl (fun acc c => mapCol acc c digitsOnlyCell) t) i cellIsStr
  exact foldl_mapCol_colPred_of_range digitsOnlyCell cellIsStr cellIsStr_digitsOnlyCell
    phoneColumns t i h

/-- C1: phone normalization.  For every well-formed table the pipeline cleans
successfully, each phone column present in the result holds only digits-only
strings (the shape the spec writes as matching a digits-only pattern, possibly
empty), because Step 10 replaces each value by the string of its ASCII digits;
and the spec's example value normalizes to the digit string 15550100000. -/
theorem claim_C1 (t t' : Table) (hwf : WF t) (h : cleanData t = Except.ok t')
    (c : String) (hcphone : c ∈ phoneColumns) (i : Nat) (hc : colIdx c t'.headers = some i) :
    (∀ r ∈ t'.rows, cellIsDigits (cellAt i r) = true) ∧
    digitsOnlyCell (textNormCell (Cell.str "+1 (555) 010-0000")) = Cell.str "15550100000" := by
  refine ⟨?_, rfl⟩
  rw [cleanData_ok_iff] at h
  obtain ⟨t3, t6, h3, h6, het⟩ := h
  rw [het] at hc
  rw [het]
  have hwf6 : WF t6 :=
    stepDropMissingIds_wf _ _ h6 (stepRenameHeaders_wf _ (stepDropIndexCol_wf _
      (stepDedupIds_wf _ _ h3 (stepDedupRows_wf t hwf))))
  have hwf8 : WF (stepTextColumns (stepParseDates (stepFillEmail t6))) :=
    stepTextColumns_wf _ (stepParseDates_wf _ (stepFillEmail_wf _ hwf6))
  have hch : colIdx c (stepTextColumns (stepParseDates (stepFillEmail t6))).headers = some i := by
    rw [stepTextColumns_headers, stepParseDates_headers, stepFillEmail_headers]
    rw [tailSteps_headers] at hc
    exact hc
  show ColPred (stepPhoneColumns (stepTextColumns (stepParseDates (stepFillEmail t6)))) i
    cellIsDigits
  exact stepPhoneColumns_colPred_target _ i c hwf8 hcphone hch

theorem claim_C1_witness :
    (∀ r ∈ exTableC1Out.rows, cellIsDigits (cellAt 1 r) = true) ∧
    cleanData exTableC1 = Except.ok exTableC1Out ∧
    exTableC1Out.rows.map (cellAt 1) = [Cell.str "15550100000"] :=
  ⟨(claim_C1 exTableC1 exTableC1Out (by decide) rfl "phone_1" (by decide) 1 rfl).1, rfl, rfl⟩

/-- C4 (amended): output serialization of nulls.  A value still null when
Step 12 serializes the table is rendered as an empty field; but a value that
was null in one of the textual columns does not stay null: Step 9's
`astype(str)` turns it into the literal string "nan" (lowercasing and
stripping leave it unchanged), so after the pipeline every cell of a present
textual column is a string — load-time nulls of those columns are written to
the file as the field "nan", not as an empty field (in the phone columns the
subsequent digit-stripping further reduces it to the empty string). -/
theorem claim_C4_amended :
    renderCell Cell.null = "" ∧
    textNormCell Cell.null = Cell.str "nan" ∧
    renderCell (Cell.str "nan") = "nan" ∧
    (∀ t t', WF t → cleanData t = Except.ok t' →
      ∀ n ∈ textColumns, ∀ i, colIdx n t'.headers = some i →
        ∀ r ∈ t'.rows, cellIsStr (cellAt i r) = true) := by
  refine ⟨rfl, rfl, rfl, ?_⟩
  intro t t' hwf h n hn i hc
  rw [cleanData_ok_iff] at h
  obtain ⟨t3, t6, h3, h6, het⟩ := h
  rw [het] at hc
  rw [het]
  have hwf6 : WF t6 :=
    stepDropMissingIds_wf _ _ h6 (stepRenameHeaders_wf _ (stepDropIndexCol_wf _
      (stepDedupIds_wf _ _ h3 (stepDedupRows_wf t hwf))))
  have hwf7 : WF (stepParseDates (stepFillEmail t6)) :=
    stepParseDates_wf _ (stepFillEmail_wf _ hwf6)
  have hch : colIdx n (stepParseDates (stepFillEmail t6)).headers = some i := by
    rw [stepParseDates_headers, stepFillEmail_headers]
    rw [tailSteps_headers] at hc
    exact hc
  have h9 : ColPred (stepTextColumns (stepParseDates (stepFillEmail t6))) i cellIsStr :=
    stepTextColumns_colPred_target _ i n hwf7 hn hch
  show ColPred (stepPhoneColumns (stepTextColumns (stepParseDates (stepFillEmail t6)))) i cellIsStr
  exact stepPhoneColumns_colPred_str _ i h9

/-- C4 counterexample: a first name that is null at load time is written to
the output as the field "nan", not as an empty field, refuting the claim that
nulls passing through Step 9's text normalization serialize as empty. -/
theorem claim_C4_counterexample :
    cleanData exTableC4 = Except.ok exTableC4Out ∧
    renderTable exTableC4Out = [["customer_id", "first_name"], ["a", "nan"]] ∧
    ("nan" : String) ≠ "" :=
  ⟨rfl, rfl, by decide⟩

theorem claim_C4_witness :
    renderCell Cell.null = "" ∧
    (∀ r ∈ exTableC4Out.rows, cellIsStr (cellAt 1 r) = true) :=
  ⟨claim_C4_amended.1,
    claim_C4_amended.2.2.2 exTableC4 exTableC4Out (by decide) rfl "first_name" (by decide) 1 rfl⟩

/-- C3 (amended): required-field filtering.  Step 6 removes exactly the rows
whose `customer_id` value is missing (null); a row whose identifier is a
non-null value such as the empty string is kept, so after Step 6 no remaining
row has a null identifier (an empty-string identifier may remain). -/
theorem claim_C3_amended (t t6 : Table) (i : Nat)
    (hc : colIdx "customer_id" t.headers = some i)
    (h : stepDropMissingIds t = Except.ok t6) :
    t6.rows = t.rows.filter (fun r => decide (cellAt i r ≠ Cell.null)) ∧
    ∀ r ∈ t6.rows, cellAt i r ≠ Cell.null := by
  rw [stepDropMissingIds_eq t i hc] at h
  cases h
  refine ⟨rfl, ?_⟩
  intro r hr
  have hp := (List.mem_filter.mp hr).2
  simpa using hp

/-- C3 counterexample: on a table whose identifier column holds the empty
string and a null, Step 6 keeps the empty-string row, so it is not true that
every row with an empty-or-null identifier is removed. -/
theorem claim_C3_counterexample :
    stepDropMissingIds exTableC3 = Except.ok exTableC3Out ∧
    Cell.str "" ∈ exTableC3Out.rows.map (cellAt 0) ∧
    Cell.str "" ≠ Cell.null :=
  ⟨rfl, by decide, by decide⟩

theorem claim_C3_witness :
    exTableC3Out.rows = exTableC3.rows.filter (fun r => decide (cellAt 0 r ≠ Cell.null)) ∧
    ∀ r ∈ exTableC3Out.rows, cellAt 0 r ≠ Cell.null :=
  claim_C3_amended exTableC3 exTableC3Out 0 rfl rfl

/-- C5 (amended): default-fill.  When the email column is absent the step is
the identity; when it is present, every null email cell becomes the string
"N/A" and every other email cell (an empty string included) is unchanged; and
because Step 9 later lowercases the email column, a value filled this way
appears in the persisted output as "n/a", not "N/A". -/
theorem claim_C5_amended (t : Table) :
    (colIdx "email" t.headers = none → stepFillEmail t = t) ∧
    (∀ i, colIdx "email" t.headers = some i →
      (stepFillEmail t).headers = t.headers ∧
      (stepFillEmail t).rows = t.rows.map (fun r => r.set i (fillNACell (cellAt i r)))) ∧
    textNormCell (Cell.str "N/A") = Cell.str "n/a" := by
  refine ⟨?_, ?_, rfl⟩
  · intro hc
    simp [stepFillEmail, hc]
  · intro i hc
    simp only [stepFillEmail, hc]
    split
    · refine ⟨mapCol_headers t "email" fillNACell, ?_⟩
      simp only [mapCol, hc]
    · rename_i hcnt
      have h0 : t.rows.countP (fun r => decide (cellAt i r = Cell.null)) = 0 := by omega
      rw [List.countP_eq_zero] at h0
      refine ⟨rfl, ?_⟩
      symm
      apply map_eq_self_of_forall
      intro r hr
      have hne : ¬ (cellAt i r = Cell.null) := by simpa using h0 r hr
      rw [fillNACell, if_neg hne]
      exact set_getD_self r i Cell.null

/-- C5 counterexample: running the full pipeline on a table with a null email
and an empty-string email, the null is filled but reaches the output as the
lowercased string "n/a" (not the literal "N/A" the claim promises), and the
empty-string email is not filled at all. -/
theorem claim_C5_counterexample :
    cleanData exTableC5 = Except.ok exTableC5Out ∧
    exTableC5Out.rows.map (cellAt 1) = [Cell.str "n/a", Cell.str ""] ∧
    Cell.str "n/a" ≠ Cell.str "N/A" ∧
    Cell.str "" ≠ Cell.str "N/A" :=
  ⟨rfl, rfl, by decide, by decide⟩

theorem claim_C5_witness :
    stepFillEmail exTableNoKey = exTableNoKey ∧
    (stepFillEmail exTableEmail).rows =
      exTableEmail.rows.map (fun r => r.set 0 (fillNACell (cellAt 0 r))) ∧
    textNormCell (Cell.str "N/A") = Cell.str "n/a" :=
  ⟨(claim_C5_amended exTableNoKey).1 rfl,
    ((claim_C5_amended exTableEmail).2.1 0 rfl).2,
    (claim_C5_amended exTableEmail).2.2⟩

/-- C6: error handling and atomicity.  Whatever failure the run hits — the
input file missing, the engine library missing, a malformed file, or any
error raised inside the pipeline body — the single handler catches it: the
run ends with exit status 0, the final message is a failure message rather
than the success message, and the environment (in particular any output file
written by an earlier successful run) is completely untouched, so no partial
output is ever produced. -/
theorem claim_C6 (e : Env)
    (h : e.input = LoadResult.missingFile ∨ e.input = LoadResult.missingOpenpyxl ∨
      e.input = LoadResult.badFile ∨
      ∃ t pe, e.input = LoadResult.loaded t ∧ cleanData t = Except.error pe) :
    (runScript e).1 = e ∧ (runScript e).2.1 = 0 ∧ (runScript e).2.2 ≠ msgSuccess := by
  rcases h with h | h | h | ⟨t, pe, hin, hp⟩
  · simp only [runScript, h]
    exact ⟨trivial, trivial, by decide⟩
  · simp only [runScript, h]
    exact ⟨trivial, trivial, by decide⟩
  · simp only [runScript, h]
    exact ⟨trivial, trivial, by decide⟩
  · simp only [runScript, hin, hp]
    exact ⟨trivial, trivial, by decide⟩

theorem claim_C6_witness :
    (runScript exEnvC6).1 = exEnvC6 ∧ (runScript exEnvC6).2.1 = 0 ∧
    (runScript exEnvC6).2.2 ≠ msgSuccess :=
  claim_C6 exEnvC6
    (Or.inr (Or.inr (Or.inr ⟨exTableNoKey, PError.keyError "Customer Id", rfl, rfl⟩)))

/-- C10: table-shape invariant.  Every pipeline step preserves the invariant
that all rows carry exactly one cell per column (equivalently, in the
column view, that all columns have the same length): rows are only ever
removed whole, and the one column removal deletes the cell of every row.
The full pipeline therefore preserves it as well. -/
theorem claim_C10 :
    (∀ t, WF t → WF (stepDedupRows t)) ∧
    (∀ t t', stepDedupIds t = Except.ok t' → WF t → WF t') ∧
    (∀ t, WF t → WF (stepDropIndexCol t)) ∧
    (∀ t, WF t → WF (stepRenameHeaders t)) ∧
    (∀ t t', stepDropMissingIds t = Except.ok t' → WF t → WF t') ∧
    (∀ t, WF t → WF (stepFillEmail t)) ∧
    (∀ t, WF t → WF (stepParseDates t)) ∧
    (∀ t, WF t → WF (stepTextColumns t)) ∧
    (∀ t, WF t → WF (stepPhoneColumns t)) ∧
    (∀ t t', cleanData t = Except.ok t' → WF t → WF t') :=
  ⟨stepDedupRows_wf, stepDedupIds_wf, stepDropIndexCol_wf, stepRenameHeaders_wf,
    stepDropMissingIds_wf, stepFillEmail_wf, stepParseDates_wf, stepTextColumns_wf,
    stepPhoneColumns_wf, cleanData_wf⟩

theorem claim_C10_witness : WF exTableC1 ∧ WF (stepDedupRows exTableC1) :=
  ⟨by decide, claim_C10.1 exTableC1 (by decide)⟩

theorem passCounts_renamed_ok (T : Table) (hh : T.headers = normHeaders)
    (hnd : (T.rows.map (cellAt 0)).Nodup)
    (hnn : ∀ r ∈ T.rows, cellAt 0 r ≠ Cell.null)
    (hstr : ColPred T 8 cellIsStr) :
    passCounts "customer_id" T = Except.ok (0, 0, 0, 0) := by
  obtain ⟨hs, rs⟩ := T
  have hh' : hs = normHeaders := hh
  subst hh'
  have hnd' : (rs.map (cellAt 0)).Nodup := hnd
  have hnn' : ∀ r ∈ rs, cellAt 0 r ≠ Cell.null := hnn
  have hrsnd : rs.Nodup := List.Nodup.of_map (cellAt 0) hnd'
  have hc1 : dupCountBy (fun r => r) rs = 0 :=
    dupCountBy_eq_zero_of_nodup _ rs (by simpa using hrsnd)
  have ht2 : stepDedupRows (Table.mk normHeaders rs) = Table.mk normHeaders rs := by
    rw [stepDedupRows_eq]
    rw [dropDupsBy_eq_of_count_zero _ _ hc1]
  have hc2 : dupCountBy (cellAt 0) rs = 0 := dupCountBy_eq_zero_of_nodup _ rs hnd'
  have hkd : stepKeyDedupAt 0 (Table.mk normHeaders rs) = Table.mk normHeaders rs := by
    have hc2' : dupCountBy (cellAt 0) (Table.mk normHeaders rs).rows = 0 := hc2
    rw [stepKeyDedupAt, hc2', if_neg (by omega)]
  have hdix : stepDropIndexCol (Table.mk normHeaders rs) = Table.mk normHeaders rs := rfl
  have hren : stepRenameHeaders (Table.mk normHeaders rs) = Table.mk normHeaders rs := by
    show Table.mk (normHeaders.map normalizeName) rs = Table.mk normHeaders rs
    rw [show normHeaders.map normalizeName = normHeaders from by decide]
  have hcol0 : colIdx "customer_id" normHeaders = some 0 := rfl
  have hcol8 : colIdx "email" normHeaders = some 8 := rfl
  have hkept : rs.filter (fun r => decide (cellAt 0 r ≠ Cell.null)) = rs := by
    rw [List.filter_eq_self]
    intro r hr
    simpa using hnn' r hr
  have hc4 : rs.countP (fun r => decide (cellAt 8 r = Cell.null)) = 0 := by
    rw [List.countP_eq_zero]
    intro r hr
    have hp : cellIsStr (cellAt 8 r) = true := hstr r hr
    intro hd
    rw [decide_eq_true_eq] at hd
    rw [hd] at hp
    exact absurd hp (by decide)
  simp only [passCounts, ht2, hkd, hdix, hren, hcol0, hcol8, dropnaCount, dropnaAt,
    emailNullCount, hc1, hc2, hkept, hc4, Nat.sub_self]

theorem stepDropIndexCol_eq (t : Table) (i : Nat) (hc : colIdx "Index" t.headers = some i) :
    stepDropIndexCol t =
      Table.mk (t.headers.eraseIdx i) (t.rows.map (fun r => r.eraseIdx i)) := by
  rw [stepDropIndexCol, hc]

theorem stepRenameHeaders_rows (t : Table) : (stepRenameHeaders t).rows = t.rows := rfl

theorem stepDedupIds_key_nodup (t t3 : Table) (i : Nat)
    (hc : colIdx "Customer Id" t.headers = some i) (h : stepDedupIds t = Except.ok t3) :
    (t3.rows.map (cellAt i)).Nodup := by
  rw [stepDedupIds_eq t i hc] at h
  cases h
  exact (dropDupsBy_map_nodup (cellAt i) t.rows []).1

theorem stepDropMissingIds_rows (t t6 : Table) (i : Nat)
    (hc : colIdx "customer_id" t.headers = some i) (h : stepDropMissingIds t = Except.ok t6) :
    t6.rows = t.rows.filter (fun r => decide (cellAt i r ≠ Cell.null)) := by
  rw [stepDropMissingIds_eq t i hc] at h
  cases h
  rfl

theorem stepTextColumns_colVals (t : Table) (i : Nat)
    (h : ∀ n ∈ textColumns, colIdx n t.headers ≠ some i) :
    (stepTextColumns t).rows.map (cellAt i) = t.rows.map (cellAt i) := by
  show (textColumns.foldl (fun acc c => mapCol acc c textNormCell) t).rows.map (cellAt i) = _
  exact foldl_mapCol_colVals textNormCell textColumns t i h

theorem stepPhoneColumns_colVals (t : Table) (i : Nat)
    (h : ∀ n ∈ phoneColumns, colIdx n t.headers ≠ some i) :
    (stepPhoneColumns t).rows.map (cellAt i) = t.rows.map (cellAt i) := by
  show (phoneColumns.foldl (fun acc c => mapCol acc c digitsOnlyCell) t).rows.map (cellAt i) = _
  exact foldl_mapCol_colVals digitsOnlyCell phoneColumns t i h

theorem tailSteps_colVals_zero (t : Table) (hh : t.headers = normHeaders) :
    (tailSteps t).rows.map (cellAt 0) = t.rows.map (cellAt 0) := by
  have h1 : (stepFillEmail t).rows.map (cellAt 0) = t.rows.map (cellAt 0) :=
    stepFillEmail_colVals t 0 (by rw [hh]; decide)
  have hh1 : (stepFillEmail t).headers = normHeaders := by rw [stepFillEmail_headers, hh]
  have h2 : (stepParseDates (stepFillEmail t)).rows.map (cellAt 0) =
      (stepFillEmail t).rows.map (cellAt 0) :=
    stepParseDates_colVals _ 0 (by rw [hh1]; decide)
  have hh2 : (stepParseDates (stepFillEmail t)).headers = normHeaders := by
    rw [stepParseDates_headers, hh1]
  have halltext : ∀ n ∈ textColumns, colIdx n normHeaders ≠ some 0 := by decide
  have h3 : (stepTextColumns (stepParseDates (stepFillEmail t))).rows.map (cellAt 0) =
      (stepParseDates (stepFillEmail t)).rows.map (cellAt 0) :=
    stepTextColumns_colVals _ 0 (fun n hn => by rw [hh2]; exact halltext n hn)
  have hh3 : (stepTextColumns (stepParseDates (stepFillEmail t))).headers = normHeaders := by
    rw [stepTextColumns_headers, hh2]
  have hallphone : ∀ n ∈ phoneColumns, colIdx n normHeaders ≠ some 0 := by decide
  have h4 : (stepPhoneColumns (stepTextColumns (stepParseDates (stepFillEmail t)))).rows.map
      (cellAt 0) = (stepTextColumns (stepParseDates (stepFillEmail t))).rows.map (cellAt 0) :=
    stepPhoneColumns_colVals _ 0 (fun n hn => by rw [hh3]; exact hallphone n hn)
  show (stepPhoneColumns (stepTextColumns (stepParseDates (stepFillEmail t)))).rows.map
      (cellAt 0) = t.rows.map (cellAt 0)
  rw [h4, h3, h2, h1]

/-- C7 (amended): idempotence.  Re-running the pipeline code on the cleaned
output fails outright, because the key-deduplication subset column
`'Customer Id'` was renamed to `customer_id` and that step has no presence
guard; but modulo that renaming — computing the key-duplicate count on
`customer_id` as `passCounts "customer_id"` does — a second pass over the
cleaned output of any well-formed input with the documented schema finds
nothing left to change: the exact-duplicate count, key-duplicate count,
missing-identifier removal count and email fill count are all zero. -/
theorem claim_C7_amended (rows : List Row) (t' : Table)
    (hwf : WF (Table.mk stdHeaders rows))
    (h : cleanData (Table.mk stdHeaders rows) = Except.ok t') :
    passCounts "customer_id" t' = Except.ok (0, 0, 0, 0) := by
  rw [cleanData_ok_iff] at h
  obtain ⟨t3, t6, h3, h6, het⟩ := h
  have hwf2 : WF (stepDedupRows (Table.mk stdHeaders rows)) := stepDedupRows_wf _ hwf
  have hcid : colIdx "Customer Id" (stepDedupRows (Table.mk stdHeaders rows)).headers = some 1 := by
    rw [stepDedupRows_headers]
    rfl
  have hwf3 : WF t3 := stepDedupIds_wf _ _ h3 hwf2
  have ht3h : t3.headers = stdHeaders := by
    rw [stepDedupIds_headers _ _ h3, stepDedupRows_headers]
  have ht3nd : (t3.rows.map (cellAt 1)).Nodup := stepDedupIds_key_nodup _ _ 1 hcid h3
  have ht4 : stepDropIndexCol t3 =
      Table.mk (t3.headers.eraseIdx 0) (t3.rows.map (fun r => r.eraseIdx 0)) :=
    stepDropIndexCol_eq t3 0 (by rw [ht3h]; rfl)
  have ht4v : (stepDropIndexCol t3).rows.map (cellAt 0) = t3.rows.map (cellAt 1) := by
    rw [ht4]
    show (t3.rows.map (fun r => r.eraseIdx 0)).map (cellAt 0) = _
    rw [List.map_map]
    apply List.map_congr_left
    intro r _
    simp only [Function.comp_apply]
    exact getD_eraseIdx_zero r 0 Cell.null
  have hwf4 : WF (stepDropIndexCol t3) := stepDropIndexCol_wf _ hwf3
  have ht5h : (stepRenameHeaders (stepDropIndexCol t3)).headers = normHeaders := by
    rw [stepRenameHeaders_headers, ht4]
    show (t3.headers.eraseIdx 0).map normalizeName = normHeaders
    rw [ht3h]
    rfl
  have hwf5 : WF (stepRenameHeaders (stepDropIndexCol t3)) := stepRenameHeaders_wf _ hwf4
  have hcustomer : colIdx "customer_id" (stepRenameHeaders (stepDropIndexCol t3)).headers =
      some 0 := by rw [ht5h]; rfl
  have hwf6 : WF t6 := stepDropMissingIds_wf _ _ h6 hwf5
  have ht6h : t6.headers = normHeaders := by
    rw [stepDropMissingIds_headers _ _ h6, ht5h]
  have ht6r : t6.rows = (stepRenameHeaders (stepDropIndexCol t3)).rows.filter
      (fun r => decide (cellAt 0 r ≠ Cell.null)) :=
    stepDropMissingIds_rows _ _ 0 hcustomer h6
  have ht6nd : (t6.rows.map (cellAt 0)).Nodup := by
    have hsub : List.Sublist (t6.rows.map (cellAt 0))
        ((stepDropIndexCol t3).rows.map (cellAt 0)) := by
      rw [ht6r, stepRenameHeaders_rows]
      exact (List.filter_sublist _).map _
    rw [ht4v] at hsub
    exact ht3nd.sublist hsub
  have ht6nn : ∀ r ∈ t6.rows, cellAt 0 r ≠ Cell.null := by
    intro r hr
    rw [ht6r] at hr
    have hp := (List.mem_filter.mp hr).2
    simpa using hp
  -- the tail steps preserve the identifier column and make the email column strings
  have hvals : (tailSteps t6).rows.map (cellAt 0) = t6.rows.map (cellAt 0) :=
    tailSteps_colVals_zero t6 ht6h
  have hwf7 : WF (stepParseDates (stepFillEmail t6)) :=
    stepParseDates_wf _ (stepFillEmail_wf _ hwf6)
  have hh7 : (stepParseDates (stepFillEmail t6)).headers = normHeaders := by
    rw [stepParseDates_headers, stepFillEmail_headers, ht6h]
  have hstr9 : ColPred (stepTextColumns (stepParseDates (stepFillEmail t6))) 8 cellIsStr :=
    stepTextColumns_colPred_target _ 8 "email" hwf7 (by decide) (by rw [hh7]; rfl)
  have hstr : ColPred (tailSteps t6) 8 cellIsStr := by
    show ColPred (stepPhoneColumns (stepTextColumns (stepParseDates (stepFillEmail t6)))) 8
      cellIsStr
    exact stepPhoneColumns_colPred_str _ 8 hstr9
  rw [het]
  refine passCounts_renamed_ok (tailSteps t6) ?_ ?_ ?_ hstr
  · rw [tailSteps_headers, ht6h]
  · rw [hvals]
    exact ht6nd
  · intro r hr
    have hm : cellAt 0 r ∈ (tailSteps t6).rows.map (cellAt 0) := List.mem_map_of_mem _ hr
    rw [hvals] at hm
    obtain ⟨r₀, hr₀, he⟩ := List.mem_map.mp hm
    rw [← he]
    exact ht6nn r₀ hr₀

/-- C7 counterexample: on a concrete input the pipeline succeeds, but the
second pass — run as the script runs it, with the deduplication key hardcoded
as `'Customer Id'` — aborts with a `KeyError` instead of reporting four zero
counts, because the cleaned output only has the renamed `customer_id` column. -/
theorem claim_C7_counterexample :
    cleanData exTableC7 = Except.ok exTableC7Out ∧
    passCounts "Customer Id" exTableC7Out = Except.error (PError.keyError "Customer Id") ∧
    passCounts "Customer Id" exTableC7Out ≠ Except.ok (0, 0, 0, 0) := by
  refine ⟨rfl, rfl, ?_⟩
  intro hcontra
  rw [show passCounts "Customer Id" exTableC7Out =
    Except.error (PError.keyError "Customer Id") from rfl] at hcontra
  cases hcontra

theorem claim_C7_witness : passCounts "customer_id" exTableC7Out = Except.ok (0, 0, 0, 0) :=
  claim_C7_amended exTableC7.rows exTableC7Out (by decide) rfl
